import Mathlib

/-!
Verification of the obsidian journal-overview generator.

This file gives a shallow embedding of the two scripts of the repository:

* `main.py` — regenerates a yearly index file `Overview {year} DailyNotes.md`
  and one monthly index file `Overview {year} {mm} Daily Notes.md` per
  populated month directory `{year}{mm}`.
* `beta/vault_overview.py/main.py` — walks a vault directory tree and emits a
  flat `overview.md` with one heading per directory and one line per file.

Python strings are modelled as Lean `String` (in Lean 4.14 a `String` is a
list of characters, matching Python's sequence-of-code-points view).  The
filesystem is modelled explicitly: a month directory is a list of note
filenames plus an optional overview file (name and content), the vault is a
rose tree of directories.  `datetime.now().strftime(...)` is a parameter of
each operation.  The `de_CH` locale's `%B` month names are a fixed table.
-/

/-- Python's `\s` character class restricted to ASCII (the only whitespace
characters that occur in the strings this program reads and writes). -/
def isPySpace (c : Char) : Bool :=
  c == ' ' || c == '\t' || c == '\n' || c == '\r' || c == '\x0b' || c == '\x0c'

/-- `listStartsWith pat l` is true when `pat` is an initial segment of `l`. -/
def listStartsWith : List Char → List Char → Bool
  | [], _ => true
  | _ :: _, [] => false
  | p :: ps, c :: cs => p == c && listStartsWith ps cs

/-- Substring test on character lists (Python's `in` on `str`). -/
def hasSubChars (pat : List Char) : List Char → Bool
  | [] => listStartsWith pat []
  | c :: cs => listStartsWith pat (c :: cs) || hasSubChars pat cs

/-- Python's `needle in haystack` on strings. -/
def hasSub (pat s : String) : Bool := hasSubChars pat.data s.data

/-- Python's `str.endswith` (exact, case-sensitive suffix test). -/
def strEndsWith (s suf : String) : Bool :=
  listStartsWith suf.data.reverse s.data.reverse

/-- Python's `str.strip()` on a character list: drop trailing whitespace
(via a reversal), then leading whitespace.  (Dropping in this order is
extensionally the same as any other order.) -/
def stripChars (l : List Char) : List Char :=
  ((l.reverse.dropWhile isPySpace).reverse).dropWhile isPySpace

/-- The literal `date:` that the regex `date:\s*(.*)` searches for. -/
def dateKey : List Char := ['d', 'a', 't', 'e', ':']

/-- After the literal `date:` has matched, `\s*` greedily consumes whitespace
(including newlines) and `(.*)` captures the remainder of that line. -/
def captureAfter (l : List Char) : List Char :=
  (l.dropWhile isPySpace).takeWhile fun c => !(c == '\n')

/-- `re.search(r"date:\s*(.*)", content)`: scan left to right for the first
occurrence of the literal `date:` and return the captured group. -/
def findDateGroup : List Char → Option (List Char)
  | [] => none
  | c :: cs =>
    if listStartsWith dateKey (c :: cs) then some (captureAfter ((c :: cs).drop 5))
    else findDateGroup cs

/-- `match.group(1).strip()` applied to the content of an existing file
(source: `extract_metadata`, `main.py` lines 54-59). -/
def extractFromContent (c : String) : String :=
  match findDateGroup c.data with
  | none => ""
  | some g => String.mk (stripChars g)

/-- `extract_metadata(index_file)` (`main.py` lines 51-60): `none` models a
path at which no file exists (`os.path.exists` false), in which case the
result is the initial `old_date = ""`. -/
def extractMetadata : Option String → String
  | none => ""
  | some c => extractFromContent c

example : extractMetadata none = "" := rfl
example : extractMetadata (some "no frontmatter at all") = "" := rfl
example : extractMetadata (some "date: 2024-03-01\n") = "2024-03-01" := rfl
example : extractMetadata (some "updated_date: 2025-01-01\ndate: 2024-03-01\n")
    = "2025-01-01" := rfl
example : extractMetadata (some "date: \nupdated_date: 2025-01-11\ntags:\n")
    = "updated_date: 2025-01-11" := rfl

/-- Python's `str.lower()` restricted to the characters that occur in the
generated month names and tags (ASCII letters are mapped to lower case, the
German umlauts likewise; every other character is left unchanged). -/
def pyLowerChar (c : Char) : Char :=
  if 'A' ≤ c && c ≤ 'Z' then Char.ofNat (c.toNat + 32)
  else if c == 'Ä' then 'ä' else if c == 'Ö' then 'ö' else if c == 'Ü' then 'ü'
  else c

/-- `str.lower()` on a whole string. -/
def pyLower (s : String) : String := String.mk (s.data.map pyLowerChar)

/-- `datetime(int(year), month, 1).strftime('%B')` under the `de_CH` locale
set at module load: the German month name.  Months are modelled as `Fin 12`
with `m.val = month - 1`. -/
def germanMonth (m : Fin 12) : String :=
  ["Januar", "Februar", "März", "April", "Mai", "Juni", "Juli", "August",
   "September", "Oktober", "November", "Dezember"].getD m.val ""

/-- `f"{month:02d}"`: the zero-padded two-digit month number. -/
def monthCode (m : Fin 12) : String :=
  ["01", "02", "03", "04", "05", "06", "07", "08", "09", "10", "11", "12"].getD m.val ""

/-- The name of the monthly index file,
`f"Overview {year} {month:02d} Daily Notes.md"`. -/
def overviewName (year : String) (m : Fin 12) : String :=
  "Overview " ++ year ++ " " ++ monthCode m ++ " Daily Notes.md"

/-- Lexicographic `≤` by code point on character lists — the string order
both Python's `sorted` and Lean's `String` order use. -/
def listLe : List Char → List Char → Bool
  | [], _ => true
  | _ :: _, [] => false
  | a :: as, b :: bs =>
    if a.toNat < b.toNat then true
    else if b.toNat < a.toNat then false
    else listLe as bs

/-- Lexicographic `≤` by code point on strings. -/
def strLe (a b : String) : Bool := listLe a.data b.data

/-- Insertion of a string into a `strLe`-ordered list (helper for
`insSort`). -/
def insOrd (a : String) : List String → List String
  | [] => [a]
  | b :: l => if strLe a b then a :: b :: l else b :: insOrd a l

/-- Python's `sorted()` on a list of strings.  Both Python and Lean order
strings lexicographically by code point, so any comparison sort computes the
same list; insertion sort is used because it is easy to reason about. -/
def insSort : List String → List String
  | [] => []
  | a :: l => insOrd a (insSort l)

/-- State of one month directory `{year}{mm}`: the names of the files other
than the monthly index file, and the content of the monthly index file when
it exists.  (Model assumption: `notes` does not itself contain the monthly
index file's name, which is how the generator leaves every directory.) -/
structure MonthState where
  notes : List String
  overview : Option String

/-- State of the journal directory of one year: the content of the yearly
index file `Overview {year} DailyNotes.md` when it exists (it lives in the
year directory itself, not in any month directory), and the state of each of
the twelve possible month directories (`none` = directory does not exist). -/
structure FS where
  yearIndex : Option String
  months : Fin 12 → Option MonthState

/-- `sorted(os.listdir(month_dir))` for a month directory in state `st`. -/
def listdirM (year : String) (m : Fin 12) (st : MonthState) : List String :=
  st.notes ++ (match st.overview with | some _ => [overviewName year m] | none => [])

/-- The per-directory view the generator works on: for each month, `none`
when the directory does not exist, otherwise its file listing. -/
def viewOf (year : String) (fs : FS) : Fin 12 → Option (List String) :=
  fun m => (fs.months m).map (listdirM year m)

/-- `len([entry for entry in sorted(os.listdir(month_dir)) if entry.endswith(".md")])`
— the per-month note count used by `month_statistics` and `write_statistics`
(`main.py` lines 83-93 and 103-111). -/
def mdCount (files : List String) : Nat :=
  ((insSort files).filter fun e => strEndsWith e ".md").length

/-- `month_statistics(year, journal_dir)` (`main.py` lines 83-93): the German
names of the months whose directory exists, in chronological order, and the
total count of `.md` files over those directories. -/
def monthStatistics (view : Fin 12 → Option (List String)) : List String × Nat :=
  (List.finRange 12).foldl
    (fun acc m =>
      match view m with
      | some files => (acc.1 ++ [germanMonth m], acc.2 + mdCount files)
      | none => acc)
    ([], 0)

/-- The fixed default tags of `write_metadata`. -/
def baseTags : List String := ["daily", "overview", "collection"]

/-- The sequence of tag values written by `write_metadata` (`main.py` lines
72-77): first the `tags` argument verbatim, then each found month name
lower-cased, then the year. -/
def writtenTags (tags foundMonths : List String) (year : String) : List String :=
  tags ++ foundMonths.map pyLower ++ [year]

/-- The frontmatter lines of `write_metadata` up to (excluding) the `date:`
line: `---`, `title:`, `author:`, `type:`. -/
def metaHead (title : String) : String :=
  "---\n" ++ "title: " ++ title ++ "\n" ++ "author: Serge Decker\n"
    ++ "type: TableOfContents\n"

/-- The `date:` line: `f"date: {old_date}\n" if old_date else "date: \n"`. -/
def dateLine (oldDate : String) : String :=
  if oldDate ≠ "" then "date: " ++ oldDate ++ "\n" else "date: \n"

/-- The `updated_date:` line, with `datetime.now().strftime('%Y-%m-%d')`
passed in as `today`. -/
def updLine (today : String) : String := "updated_date: " ++ today ++ "\n"

/-- The tag block and closing delimiter of the frontmatter. -/
def metaTagsTail (tags foundMonths : List String) (year : String) : String :=
  "tags:\n"
    ++ String.join ((writtenTags tags foundMonths year).map fun t => "  - " ++ t ++ "\n")
    ++ "---\n\n"

/-- `write_metadata(index_file, year, old_date, found_months, title, tags)`
(`main.py` lines 63-80): the full content written with mode `"w"`.  The
`title` argument is the already-formatted title (`title.format(year=year)`
is applied at the call sites below, where the title strings are built). -/
def writeMetadataContent (title oldDate today year : String)
    (tags foundMonths : List String) : String :=
  metaHead title ++ dateLine oldDate ++ updLine today ++ metaTagsTail tags foundMonths year

/-- The per-month lines of the statistics section (`write_statistics`,
`main.py` lines 103-111): one line per existing month directory. -/
def statsLines (view : Fin 12 → Option (List String)) : List String :=
  (List.finRange 12).map fun m =>
    match view m with
    | some files => germanMonth m ++ ": " ++ toString (mdCount files) ++ " notes\n"
    | none => ""

/-- `write_statistics(f, year, total_notes, journal_dir)` (`main.py` lines
103-111). -/
def statsSection (year : String) (view : Fin 12 → Option (List String))
    (total : Nat) : String :=
  "## Statistics\n\n**Total number of notes in " ++ year ++ ": " ++ toString total
    ++ "**\n\n" ++ String.join (statsLines view) ++ "\n"

/-- The filtered entry list of the yearly table of contents (`main.py` lines
121-125): `.md` files whose name does not contain `Overview`. -/
def tocEntries (files : List String) : List String :=
  (insSort files).filter fun e => strEndsWith e ".md" && !(hasSub "Overview" e)

/-- `write_table_of_contents(f, year, journal_dir)` (`main.py` lines
114-129). -/
def tocSection (year : String) (view : Fin 12 → Option (List String)) : String :=
  "# Journal " ++ year ++ "\n\n"
    ++ String.join ((List.finRange 12).map fun m =>
        match view m with
        | some files =>
          "## " ++ germanMonth m ++ "\n\n"
            ++ "- [[Overview " ++ year ++ " " ++ monthCode m ++ " Daily Notes]]\n"
            ++ String.join ((tocEntries files).map fun e => "- [[" ++ e ++ "]]\n")
            ++ "\n"
        | none => "")

/-- `f"Overview {year} Daily Notes"`, the formatted default title used for
the yearly index. -/
def yearTitle (year : String) : String := "Overview " ++ year ++ " Daily Notes"

/-- `f"Overview {year} {month:02d} Daily Notes"`, the monthly index title. -/
def monthTitle (year : String) (m : Fin 12) : String :=
  "Overview " ++ year ++ " " ++ monthCode m ++ " Daily Notes"

/-- The tag list passed by `generate_month_index` to `write_metadata`
combined with the extra tags `write_metadata` appends, i.e. the full tag
sequence of a monthly index (`main.py` lines 145-146 with 72-77). -/
def monthIndexTags (year : String) (m : Fin 12) : List String :=
  writtenTags [pyLower (germanMonth m), year, "daily", "overview", "collection"]
    [germanMonth m] year

/-- The entry list of a monthly index (`main.py` line 149): the listing is
taken after `write_metadata` has recreated the overview file, so the
overview file itself is part of the listing; only the `.md` filter is
applied, there is no `Overview` filter here. -/
def monthIndexEntries (year : String) (m : Fin 12) (notes : List String) : List String :=
  (insSort (notes ++ [overviewName year m])).filter fun e => strEndsWith e ".md"

/-- The body appended to a monthly index after the frontmatter (`main.py`
lines 147-152). -/
def monthBody (year : String) (m : Fin 12) (notes : List String) : String :=
  "# Journal " ++ germanMonth m ++ " " ++ year ++ "\n\n"
    ++ String.join ((monthIndexEntries year m notes).map fun e => "- [[" ++ e ++ "]]\n")
    ++ "\n"

/-- The full content of the regenerated monthly index file
(`generate_month_index`, `main.py` lines 132-152): the old date is scraped
from the previous overview file, the file is deleted and rewritten. -/
def genMonthContent (year today : String) (m : Fin 12) (st : MonthState) : String :=
  writeMetadataContent (monthTitle year m) (extractMetadata st.overview) today year
    [pyLower (germanMonth m), year, "daily", "overview", "collection"] [germanMonth m]
    ++ monthBody year m st.notes

/-- Effect of `generate_month_index` on the month directory: the notes are
untouched, the overview file is (re)created with the new content. -/
def genMonthState (year today : String) (m : Fin 12) (st : MonthState) : MonthState :=
  { notes := st.notes, overview := some (genMonthContent year today m st) }

/-- The full content of the regenerated yearly index file (`generate_index`,
`main.py` lines 155-168): metadata (with the date preserved from the old
file), statistics and table of contents, all computed before the month
indexes are regenerated. -/
def genYearContent (year today : String) (fs : FS) : String :=
  writeMetadataContent (yearTitle year) (extractMetadata fs.yearIndex) today year
      baseTags (monthStatistics (viewOf year fs)).1
    ++ statsSection year (viewOf year fs) (monthStatistics (viewOf year fs)).2
    ++ tocSection year (viewOf year fs)

/-- `generate_index(year)` (`main.py` lines 154-172): one full run, with
`today` standing for `datetime.now().strftime('%Y-%m-%d')` during the run.
The yearly index is rewritten from the pre-run state, then every existing
month directory gets its index regenerated. -/
def genIndex (year today : String) (fs : FS) : FS :=
  { yearIndex := some (genYearContent year today fs)
    months := fun m => (fs.months m).map (genMonthState year today m) }

/-!
Model of `beta/vault_overview.py/main.py`.

A directory is a name, a list of files (name and content, in the order
`os.walk` enumerates them) and a list of subdirectories (in traversal
order).  `os.walk` is top-down: the current directory's section is written
before its subdirectories are visited.  Path components are joined with `/`
(the platform separator; the choice of separator character is irrelevant to
the substring tests and the separator count as long as it is consistent and
does not occur in directory names).

The local variable `char_count` survives from one loop iteration — and one
directory — to the next; it is modelled as an explicit `Option Nat` threaded
through the traversal, `none` while it has never been assigned.  A traversal
result of `none` models the `NameError` raised when `char_count` is used
before its first assignment (in Python the partially written `overview.md`
is left behind; the run produces no complete overview).
-/

mutual

/-- One directory of the vault: name, files (name, content) and
subdirectories.  (Mutual with `VDirList`, a plain list of subdirectories in
traversal order, so that the walk below is structurally recursive.) -/
inductive VDir where
  | node (dname : String) (dfiles : List (String × String)) (dsubs : VDirList)

/-- A list of sibling directories in traversal order. -/
inductive VDirList where
  | nil
  | cons (d : VDir) (ds : VDirList)

end

/-- The directory's name. -/
def VDir.name : VDir → String
  | .node n _ _ => n

/-- Python `file[:-3]`: the filename with its last three characters
removed. -/
def dropLast3 (s : String) : String :=
  String.mk (s.data.take (s.data.length - 3))

/-- One output line `f"- [[{file[:-3]}]] ({char_count})\n"`. -/
def noteLine (fname : String) (count : Nat) : String :=
  "- [[" ++ dropLast3 fname ++ "]] (" ++ toString count ++ ")\n"

/-- The per-file loop of `generate_vault_overview` (`main.py` of the beta
script, lines 58-64): for a `.md` file the content is read and `char_count`
set to its length; the write happens for every file, using the current
`char_count` — which raises `NameError` (modelled as `none`) when no `.md`
file has been read yet. -/
def fileLines : Option Nat → List (String × String) → Option (String × Option Nat)
  | cc, [] => some ("", cc)
  | cc, (fname, content) :: rest =>
    if strEndsWith fname ".md" then
      match fileLines (some content.data.length) rest with
      | none => none
      | some (s, cc2) => some (noteLine fname content.data.length ++ s, cc2)
    else
      match cc with
      | none => none
      | some n =>
        match fileLines (some n) rest with
        | none => none
        | some (s, cc2) => some (noteLine fname n ++ s, cc2)

/-- `".obsidian" in root or ".trash" in root` — a substring test on the full
path of the directory. -/
def pathHasMarker (p : String) : Bool := hasSub ".obsidian" p || hasSub ".trash" p

/-- `rel_path.count(os.sep)`. -/
def countSep (rel : String) : Nat := rel.data.count '/'

/-- `'#' * n`. -/
def hashRun (n : Nat) : String := String.mk (List.replicate n '#')

/-- The section written for one visited (non-skipped) directory: the heading
(only when `rel_path.count(os.sep) > 0`, i.e. at depth ≥ 2 below the vault
root, with `level + 1` hash marks), the file lines, and a blank line. -/
def dirSection (rel dname : String) (cc : Option Nat)
    (files : List (String × String)) : Option (String × Option Nat) :=
  match fileLines cc files with
  | none => none
  | some (s, cc2) =>
    some ((if countSep rel > 0 then hashRun (countSep rel + 1) ++ " " ++ dname ++ "\n\n"
           else "") ++ s ++ "\n", cc2)

/-- The relative path of a child directory (`os.path.relpath`): a direct
child of the root is just its name. -/
def childRel (rel dname : String) : String :=
  if rel == "." then dname else rel ++ "/" ++ dname

mutual

/-- `os.walk` from one directory: if the full path contains `.obsidian` or
`.trash` the loop body is skipped (`continue`) — nothing is written and no
file is read — but the walk still descends into the subdirectories. -/
def walkDir (full rel : String) (cc : Option Nat) : VDir →
    Option (String × Option Nat)
  | .node dn dfl dss =>
    match (if pathHasMarker full then some ("", cc) else dirSection rel dn cc dfl) with
    | none => none
    | some (s, cc2) =>
      match walkSubs full rel cc2 dss with
      | none => none
      | some (s2, cc3) => some (s ++ s2, cc3)

/-- Walk of the subdirectory list, threading `char_count`. -/
def walkSubs (full rel : String) (cc : Option Nat) : VDirList →
    Option (String × Option Nat)
  | .nil => some ("", cc)
  | .cons d ds =>
    match walkDir (full ++ "/" ++ d.name) (childRel rel d.name) cc d with
    | none => none
    | some (s, cc2) =>
      match walkSubs full rel cc2 ds with
      | none => none
      | some (s2, cc3) => some (s ++ s2, cc3)

end

/-- `generate_vault_overview(vault_path)` (beta script lines 45-67): the
header, the generation timestamp `ts`, then the walk starting at the vault
root (relative path `"."`, so the root itself gets no heading). `none`
models the `NameError` abort. -/
def generateVaultOverview (vaultPath ts : String) (root : VDir) : Option String :=
  match walkDir vaultPath "." none root with
  | none => none
  | some (s, _) => some ("# Vault Übersicht\n\nErstellt am: " ++ ts ++ "\n\n" ++ s)

/-! ### Generic lemmas about the character-list utilities -/

lemma listStartsWith_append_self (p r : List Char) : listStartsWith p (p ++ r) = true := by
  induction p with
  | nil => rfl
  | cons a l ih => simp [listStartsWith, ih]

lemma dropWhile_cons_true (p : Char → Bool) (a : Char) (l : List Char) (h : p a = true) :
    (a :: l).dropWhile p = l.dropWhile p := by
  simp [List.dropWhile_cons, h]

lemma dropWhile_cons_false (p : Char → Bool) (a : Char) (l : List Char) (h : p a = false) :
    (a :: l).dropWhile p = a :: l := by
  simp [List.dropWhile_cons, h]

lemma takeWhile_append_all (p : Char → Bool) (l1 l2 : List Char) (h : l1.all p = true) :
    (l1 ++ l2).takeWhile p = l1 ++ l2.takeWhile p := by
  induction l1 with
  | nil => simp
  | cons a l ih =>
    simp only [List.all_cons, Bool.and_eq_true] at h
    simp [List.takeWhile_cons, h.1, ih h.2]

lemma takeWhile_append_stop (p : Char → Bool) (xs : List Char) (y : Char) (ys : List Char)
    (h : p y = false) : (xs ++ y :: ys).takeWhile p = xs.takeWhile p := by
  induction xs with
  | nil => simp [List.takeWhile_cons, h]
  | cons a l ih => cases hpa : p a <;> simp [List.takeWhile_cons, hpa, ih]

lemma takeWhile_eq_self_of_all (p : Char → Bool) (l : List Char) (h : l.all p = true) :
    l.takeWhile p = l := by
  induction l with
  | nil => rfl
  | cons a t ih =>
    simp only [List.all_cons, Bool.and_eq_true] at h
    simp [List.takeWhile_cons, h.1, ih h.2]

lemma dropWhile_head?_false (p : Char → Bool) (l : List Char) (c : Char)
    (h : (l.dropWhile p).head? = some c) : p c = false := by
  induction l with
  | nil => simp at h
  | cons a t ih =>
    rw [List.dropWhile_cons] at h
    by_cases hpa : p a = true
    · rw [if_pos hpa] at h
      exact ih h
    · rw [if_neg hpa] at h
      simp only [List.head?_cons, Option.some.injEq] at h
      rw [← h]
      exact Bool.eq_false_iff.mpr hpa

lemma dropWhile_eq_self_of_head? (p : Char → Bool) (l : List Char)
    (h : ∀ c, l.head? = some c → p c = false) : l.dropWhile p = l := by
  cases l with
  | nil => rfl
  | cons a t => exact dropWhile_cons_false p a t (h a rfl)

lemma mem_dropWhile_of_not (p : Char → Bool) (l : List Char) (c : Char)
    (hc : c ∈ l) (hpc : p c = false) : c ∈ l.dropWhile p := by
  induction l with
  | nil => cases hc
  | cons a t ih =>
    rw [List.dropWhile_cons]
    by_cases hpa : p a = true
    · rw [if_pos hpa]
      rcases List.mem_cons.1 hc with rfl | h
      · rw [hpa] at hpc; cases hpc
      · exact ih h
    · rw [if_neg hpa]
      exact hc

/-- The well-formedness invariant of every value `extract_metadata` can
return: no leading or trailing whitespace and no newline. -/
def goodChars (l : List Char) : Prop :=
  (∀ c, l.head? = some c → isPySpace c = false)
  ∧ (∀ c, l.getLast? = some c → isPySpace c = false)
  ∧ '\n' ∉ l

/-- `goodChars` lifted to strings. -/
def goodVal (s : String) : Prop := goodChars s.data

lemma stripChars_eq_self (l : List Char) (h : goodChars l) : stripChars l = l := by
  obtain ⟨h1, h2, -⟩ := h
  unfold stripChars
  rw [dropWhile_eq_self_of_head? _ l.reverse
    (fun c hc => h2 c (by rwa [List.head?_reverse] at hc))]
  rw [List.reverse_reverse]
  exact dropWhile_eq_self_of_head? _ _ h1

lemma stripChars_subset (l : List Char) (c : Char) (hc : c ∈ stripChars l) : c ∈ l := by
  unfold stripChars at hc
  have h1 : c ∈ (l.reverse.dropWhile isPySpace).reverse := (List.dropWhile_sublist _).mem hc
  rw [List.mem_reverse] at h1
  have h2 : c ∈ l.reverse := (List.dropWhile_sublist _).mem h1
  rwa [List.mem_reverse] at h2

lemma goodChars_strip (l : List Char) (h : '\n' ∉ l) : goodChars (stripChars l) := by
  refine ⟨fun c hc => dropWhile_head?_false _ _ _ hc, ?_, fun hm => h (stripChars_subset _ _ hm)⟩
  intro c hc
  unfold stripChars at hc
  rcases List.dropWhile_suffix (l := (l.reverse.dropWhile isPySpace).reverse) isPySpace with ⟨t, ht⟩
  by_cases hnil : ((l.reverse.dropWhile isPySpace).reverse).dropWhile isPySpace = []
  · rw [hnil] at hc; simp at hc
  · have hlast := List.getLast?_append_of_ne_nil t hnil
    rw [ht] at hlast
    rw [← hlast, List.getLast?_reverse] at hc
    exact dropWhile_head?_false _ _ _ hc

lemma mem_stripChars (l : List Char) (c : Char) (hc : c ∈ l) (hsp : isPySpace c = false) :
    c ∈ stripChars l := by
  unfold stripChars
  refine mem_dropWhile_of_not _ _ _ ?_ hsp
  rw [List.mem_reverse]
  refine mem_dropWhile_of_not _ _ _ ?_ hsp
  rwa [List.mem_reverse]

/-! ### Lemmas about the `date:` search of `extract_metadata` -/

lemma findDateGroup_cons_not_d (c : Char) (cs : List Char) (h : c ≠ 'd') :
    findDateGroup (c :: cs) = findDateGroup cs := by
  have hsw : listStartsWith dateKey (c :: cs) = false := by
    simp [dateKey, listStartsWith, beq_iff_eq, Ne.symm h]
  simp [findDateGroup, hsw]

lemma findDateGroup_append (l1 l2 : List Char) (h : l1.all (fun c => !(c == 'd')) = true) :
    findDateGroup (l1 ++ l2) = findDateGroup l2 := by
  induction l1 with
  | nil => rfl
  | cons a t ih =>
    simp only [List.all_cons, Bool.and_eq_true, Bool.not_eq_true', beq_eq_false_iff_ne] at h
    rw [List.cons_append, findDateGroup_cons_not_d a _ h.1]
    refine ih ?_
    simp only [List.all_eq_true, Bool.not_eq_true', beq_eq_false_iff_ne]
    exact fun c hc => by
      have := h.2
      simp only [List.all_eq_true, Bool.not_eq_true', beq_eq_false_iff_ne] at this
      exact this c hc

lemma findDateGroup_hit (r : List Char) :
    findDateGroup ('d' :: 'a' :: 't' :: 'e' :: ':' :: r) = some (captureAfter r) := by
  have hsw : listStartsWith dateKey ('d' :: 'a' :: 't' :: 'e' :: ':' :: r) = true := by
    simp [dateKey, listStartsWith]
  simp [findDateGroup, hsw]

lemma findDateGroup_none (l : List Char) (h : hasSubChars dateKey l = false) :
    findDateGroup l = none := by
  induction l with
  | nil => rfl
  | cons a t ih =>
    simp only [hasSubChars, Bool.or_eq_false_iff] at h
    simp [findDateGroup, h.1, ih h.2]

lemma findDateGroup_no_newline (l g : List Char) (h : findDateGroup l = some g) : '\n' ∉ g := by
  induction l with
  | nil => simp [findDateGroup] at h
  | cons a t ih =>
    have hdef : findDateGroup (a :: t)
        = if listStartsWith dateKey (a :: t) = true
          then some (captureAfter ((a :: t).drop 5)) else findDateGroup t := rfl
    rw [hdef] at h
    by_cases hsw : listStartsWith dateKey (a :: t) = true
    · rw [if_pos hsw] at h
      simp only [Option.some.injEq] at h
      intro hm
      rw [← h] at hm
      have := List.mem_takeWhile_imp hm
      simp at this
    · rw [if_neg hsw] at h
      exact ih h

lemma goodVal_empty : goodVal "" := by
  refine ⟨fun c hc => ?_, fun c hc => ?_, by simp⟩ <;> simp at hc

lemma goodVal_extract (o : Option String) : goodVal (extractMetadata o) := by
  cases o with
  | none => exact goodVal_empty
  | some c =>
    show goodVal (extractFromContent c)
    unfold extractFromContent
    cases hf : findDateGroup c.data with
    | none => exact goodVal_empty
    | some g => exact goodChars_strip g (findDateGroup_no_newline _ _ hf)

/-- The value the next `extract_metadata` will read back out of a file whose
`date:` field was written empty: the whitespace-skipping `\s*` crosses the
empty line's newline and `(.*)` captures the following `updated_date:` line
(up to the first newline of `today`, if any). -/
def uVal (today : String) : String :=
  String.mk (stripChars (("updated_date: ").data
    ++ today.data.takeWhile fun c => !(c == '\n')))

lemma uVal_ne (today : String) : uVal today ≠ "" := by
  intro h
  have hu : 'u' ∈ stripChars (("updated_date: ").data
      ++ today.data.takeWhile fun c => !(c == '\n')) := by
    refine mem_stripChars _ _ ?_ (by decide)
    exact List.mem_append.2 (Or.inl (by decide))
  have hdat : (uVal today).data = [] := by rw [h]
  rw [show (uVal today).data
      = stripChars (("updated_date: ").data
        ++ today.data.takeWhile fun c => !(c == '\n')) from rfl] at hdat
  rw [hdat] at hu
  cases hu

lemma goodVal_uVal (today : String) : goodVal (uVal today) := by
  show goodChars (stripChars _)
  refine goodChars_strip _ ?_
  intro hm
  rcases List.mem_append.1 hm with h | h
  · revert h; decide
  · have := List.mem_takeWhile_imp h
    simp at this

/-- The date value written by a regeneration, as a function of the
previously stored value: preserved when nonempty, otherwise replaced by the
captured `updated_date:` line of the previous file. -/
def nextDate (x today : String) : String := if x = "" then uVal today else x

lemma nextDate_ne (x today : String) : nextDate x today ≠ "" := by
  unfold nextDate
  by_cases h : x = ""
  · rw [if_pos h]; exact uVal_ne today
  · rw [if_neg h]; exact h

lemma nextDate_eq_self (x today : String) (h : x ≠ "") : nextDate x today = x := if_neg h

lemma goodVal_nextDate (x today : String) (hx : goodVal x) : goodVal (nextDate x today) := by
  unfold nextDate
  by_cases h : x = ""
  · rw [if_pos h]; exact goodVal_uVal today
  · rwa [if_neg h]

lemma captureAfter_value (x r : List Char)
    (hhead : ∀ c, x.head? = some c → isPySpace c = false) (hnl : '\n' ∉ x) (hne : x ≠ []) :
    captureAfter (' ' :: (x ++ '\n' :: r)) = x := by
  unfold captureAfter
  rw [dropWhile_cons_true _ _ _ (by decide)]
  cases x with
  | nil => exact absurd rfl hne
  | cons a t =>
    rw [List.cons_append, dropWhile_cons_false _ _ _ (hhead a rfl), ← List.cons_append]
    rw [takeWhile_append_stop _ _ _ _ (by decide)]
    refine takeWhile_eq_self_of_all _ _ ?_
    simp only [List.all_eq_true, Bool.not_eq_true', beq_eq_false_iff_ne]
    exact fun c hc hceq => hnl (hceq ▸ hc)

lemma captureAfter_upd (t r : List Char) :
    captureAfter (' ' :: '\n' :: (("updated_date: ").data ++ (t ++ '\n' :: r)))
      = ("updated_date: ").data ++ (t.takeWhile fun c => !(c == '\n')) := by
  unfold captureAfter
  rw [dropWhile_cons_true _ _ _ (by decide), dropWhile_cons_true _ _ _ (by decide)]
  rw [show ("updated_date: ").data = 'u' :: ("pdated_date: ").data from rfl]
  rw [List.cons_append, dropWhile_cons_false _ _ _ (by decide), ← List.cons_append]
  rw [← show ("updated_date: ").data = 'u' :: ("pdated_date: ").data from rfl]
  rw [takeWhile_append_all _ _ _ (by decide)]
  rw [takeWhile_append_stop _ _ _ _ (by decide)]

/-- No occurrence of the character `d` — sufficient for the `date:` scan to
pass over a segment of the file without matching. -/
def noD (s : String) : Bool := s.data.all fun c => !(c == 'd')

lemma noD_append (s t : String) : noD (s ++ t) = (noD s && noD t) := by
  simp [noD, String.data_append, List.all_append]

lemma noD_of_digits (s : String) (h : s.data.all Char.isDigit = true) : noD s = true := by
  simp only [noD, List.all_eq_true, Bool.not_eq_true', beq_eq_false_iff_ne]
  simp only [List.all_eq_true] at h
  intro c hc heq
  have hd := h c hc
  rw [heq] at hd
  exact absurd hd (by decide)

lemma monthCode_digits : ∀ m : Fin 12, (monthCode m).data.all Char.isDigit = true := by decide

lemma noD_metaHead_year (year : String) (hy : year.data.all Char.isDigit = true) :
    noD (metaHead (yearTitle year)) = true := by
  have h1 := noD_of_digits year hy
  simp only [metaHead, yearTitle, noD_append, h1]
  decide

lemma noD_metaHead_month (year : String) (m : Fin 12)
    (hy : year.data.all Char.isDigit = true) :
    noD (metaHead (monthTitle year m)) = true := by
  have h1 := noD_of_digits year hy
  have h2 := noD_of_digits (monthCode m) (monthCode_digits m)
  simp only [metaHead, monthTitle, noD_append, h1, h2]
  decide

/-- What `extract_metadata` reads back out of a file that `write_metadata`
has written (with anything appended after the frontmatter): the stored value
when it was nonempty, the captured `updated_date:` line otherwise. -/
lemma extract_written (title x today year tail : String) (tags fm : List String)
    (hclean : noD (metaHead title) = true) (hx : goodVal x) :
    extractFromContent (writeMetadataContent title x today year tags fm ++ tail)
      = nextDate x today := by
  unfold extractFromContent nextDate
  by_cases hxe : x = ""
  · subst hxe
    rw [if_pos rfl]
    have hdata : (writeMetadataContent title "" today year tags fm ++ tail).data
        = (metaHead title).data ++ ('d' :: 'a' :: 't' :: 'e' :: ':' :: ' ' :: '\n' ::
            (("updated_date: ").data ++ (today.data ++ '\n' ::
              ((metaTagsTail tags fm year).data ++ tail.data)))) := by
      simp [writeMetadataContent, dateLine, updLine, String.data_append, List.append_assoc,
        show ("date: \n").data = ['d', 'a', 't', 'e', ':', ' ', '\n'] from rfl,
        show ("\n" : String).data = ['\n'] from rfl]
    rw [hdata, findDateGroup_append _ _ hclean, findDateGroup_hit, captureAfter_upd]
    rfl
  · rw [if_neg hxe]
    have hxd : x.data ≠ [] := fun hh => hxe (String.ext hh)
    have hdata : (writeMetadataContent title x today year tags fm ++ tail).data
        = (metaHead title).data ++ ('d' :: 'a' :: 't' :: 'e' :: ':' :: ' ' ::
            (x.data ++ '\n' :: ((updLine today).data
              ++ ((metaTagsTail tags fm year).data ++ tail.data)))) := by
      simp [writeMetadataContent, dateLine, hxe, String.data_append, List.append_assoc,
        show ("date: ").data = ['d', 'a', 't', 'e', ':', ' '] from rfl,
        show ("\n" : String).data = ['\n'] from rfl]
    rw [hdata, findDateGroup_append _ _ hclean, findDateGroup_hit]
    rw [captureAfter_value x.data _ hx.1 hx.2.2 hxd]
    show String.mk (stripChars x.data) = x
    rw [stripChars_eq_self _ hx]

lemma extract_genYearContent (year today : String) (fs : FS)
    (hy : year.data.all Char.isDigit = true) :
    extractFromContent (genYearContent year today fs)
      = nextDate (extractMetadata fs.yearIndex) today := by
  have hshape : genYearContent year today fs
      = writeMetadataContent (yearTitle year) (extractMetadata fs.yearIndex) today year
          baseTags (monthStatistics (viewOf year fs)).1
        ++ (statsSection year (viewOf year fs) (monthStatistics (viewOf year fs)).2
            ++ tocSection year (viewOf year fs)) := by
    rw [genYearContent, String.append_assoc]
  rw [hshape, extract_written _ _ _ _ _ _ _ (noD_metaHead_year year hy) (goodVal_extract _)]

lemma extract_genMonthContent (year today : String) (m : Fin 12) (st : MonthState)
    (hy : year.data.all Char.isDigit = true) :
    extractFromContent (genMonthContent year today m st)
      = nextDate (extractMetadata st.overview) today := by
  rw [genMonthContent,
    extract_written _ _ _ _ _ _ _ (noD_metaHead_month year m hy) (goodVal_extract _)]

/-! ### Comparing two regenerated files -/

/-- Two file contents are byte-identical except for the text of the
`updated_date:` line: a common prefix, the `updated_date: ` literal, the two
(newline-free) variable parts, a newline, and a common suffix. -/
def updatedOnlyDiff (c c2 : String) : Prop :=
  ∃ p t t2 s, c.data = p ++ (("updated_date: ").data ++ (t ++ '\n' :: s))
    ∧ c2.data = p ++ (("updated_date: ").data ++ (t2 ++ '\n' :: s))
    ∧ '\n' ∉ t ∧ '\n' ∉ t2

lemma updatedOnlyDiff_writeMeta (title x t2 t3 year : String) (tags fm : List String)
    (suf : String) (h2 : '\n' ∉ t2.data) (h3 : '\n' ∉ t3.data) :
    updatedOnlyDiff (writeMetadataContent title x t2 year tags fm ++ suf)
      (writeMetadataContent title x t3 year tags fm ++ suf) := by
  refine ⟨(metaHead title).data ++ (dateLine x).data, t2.data, t3.data,
    (metaTagsTail tags fm year).data ++ suf.data, ?_, ?_, h2, h3⟩ <;>
  simp [writeMetadataContent, updLine, String.data_append, List.append_assoc,
    show ("\n" : String).data = ['\n'] from rfl]

/-- After one regeneration every existing month directory's listing is its
notes plus the (re)created overview file. -/
lemma viewOf_genIndex (year today : String) (fs : FS) :
    viewOf year (genIndex year today fs)
      = fun m => (fs.months m).map fun st => st.notes ++ [overviewName year m] := by
  funext m
  cases hm : fs.months m with
  | none => simp [viewOf, genIndex, hm]
  | some st => simp [viewOf, genIndex, hm, genMonthState, listdirM]

/-- The month directory's files agree and the overview contents differ only
in the `updated_date:` line. -/
def monthsAgree (s s2 : FS) (m : Fin 12) : Prop :=
  (s.months m = none ∧ s2.months m = none)
  ∨ ∃ n c c2, s.months m = some ⟨n, some c⟩ ∧ s2.months m = some ⟨n, some c2⟩
      ∧ updatedOnlyDiff c c2

/-- All output files of two states agree except for `updated_date:` lines. -/
def agreeExceptUpdated (s s2 : FS) : Prop :=
  (∃ c c2, s.yearIndex = some c ∧ s2.yearIndex = some c2 ∧ updatedOnlyDiff c c2)
  ∧ ∀ m, monthsAgree s s2 m

/-! ### Sorting, suffix and substring lemmas -/

lemma insOrd_perm (a : String) (l : List String) : List.Perm (insOrd a l) (a :: l) := by
  induction l with
  | nil => exact List.Perm.refl _
  | cons b t ih =>
    unfold insOrd
    by_cases h : strLe a b = true
    · rw [if_pos h]
    · rw [if_neg h]
      exact (ih.cons b).trans (List.Perm.swap a b t)

lemma insSort_perm (l : List String) : List.Perm (insSort l) l := by
  induction l with
  | nil => exact List.Perm.refl _
  | cons a t ih => exact (insOrd_perm a (insSort t)).trans (ih.cons a)

lemma mdCount_eq_countP (l : List String) :
    mdCount l = l.countP fun e => strEndsWith e ".md" := by
  unfold mdCount
  rw [← List.countP_eq_length_filter]
  exact (insSort_perm l).countP_eq _

lemma listStartsWith_append_left (p l r : List Char) (h : listStartsWith p l = true) :
    listStartsWith p (l ++ r) = true := by
  induction p generalizing l with
  | nil => rfl
  | cons a ps ih =>
    cases l with
    | nil => cases h
    | cons b bs =>
      simp only [listStartsWith, Bool.and_eq_true] at h
      simp only [List.cons_append, listStartsWith, Bool.and_eq_true]
      exact ⟨h.1, ih bs h.2⟩

lemma strEndsWith_append (x y suf : String) (h : strEndsWith y suf = true) :
    strEndsWith (x ++ y) suf = true := by
  unfold strEndsWith at h ⊢
  rw [String.data_append, List.reverse_append]
  exact listStartsWith_append_left _ _ _ h

lemma overviewName_md (year : String) (m : Fin 12) :
    strEndsWith (overviewName year m) ".md" = true := by
  unfold overviewName
  exact strEndsWith_append _ _ _ (by decide)

lemma hasSubChars_of_startsWith (pat l : List Char) (h : listStartsWith pat l = true) :
    hasSubChars pat l = true := by
  cases l with
  | nil => exact h
  | cons c cs => simp [hasSubChars, h]

lemma hasSub_overview (year : String) (m : Fin 12) :
    hasSub "Overview" (overviewName year m) = true := by
  unfold hasSub overviewName
  apply hasSubChars_of_startsWith
  have hd : (("Overview " ++ year ++ " " ++ monthCode m ++ " Daily Notes.md")).data
      = ("Overview ").data ++ (year.data ++ ((" ").data ++ ((monthCode m).data
          ++ (" Daily Notes.md").data))) := by
    simp [String.data_append, List.append_assoc]
  rw [hd]
  exact listStartsWith_append_left _ _ _ (by decide)

/-- C1 (amended): regeneration becomes idempotent from the second run on.
For every note tree and any sequence of run dates, the files written by the
second and by the third run of `generate_index` are byte-identical except
for the `updated_date:` line of each file.  (The first run is excluded: see
the counterexample theorem, where run 1 and run 2 differ in the statistics
and in the `date:` line.) -/
theorem c1_regeneration_idempotent_from_second_run
    (year t1 t2 t3 : String) (fs : FS)
    (hy : year.data.all Char.isDigit = true)
    (ht2 : '\n' ∉ t2.data) (ht3 : '\n' ∉ t3.data) :
    agreeExceptUpdated (genIndex year t2 (genIndex year t1 fs))
      (genIndex year t3 (genIndex year t2 (genIndex year t1 fs))) := by
  have hview : viewOf year (genIndex year t2 (genIndex year t1 fs))
      = viewOf year (genIndex year t1 fs) := by
    rw [viewOf_genIndex, viewOf_genIndex]
    funext m
    cases hm : fs.months m <;> simp [genIndex, hm, genMonthState]
  have hD2 : extractMetadata ((genIndex year t1 fs).yearIndex)
      = nextDate (extractMetadata fs.yearIndex) t1 :=
    extract_genYearContent year t1 fs hy
  have hD3 : extractMetadata ((genIndex year t2 (genIndex year t1 fs)).yearIndex)
      = extractMetadata ((genIndex year t1 fs).yearIndex) := by
    show extractFromContent (genYearContent year t2 (genIndex year t1 fs)) = _
    rw [extract_genYearContent year t2 _ hy, hD2,
      nextDate_eq_self _ _ (nextDate_ne _ _)]
  constructor
  · refine ⟨genYearContent year t2 (genIndex year t1 fs),
      genYearContent year t3 (genIndex year t2 (genIndex year t1 fs)), rfl, rfl, ?_⟩
    have e2 : genYearContent year t2 (genIndex year t1 fs)
        = writeMetadataContent (yearTitle year)
            (extractMetadata ((genIndex year t1 fs).yearIndex)) t2 year baseTags
            (monthStatistics (viewOf year (genIndex year t1 fs))).1
          ++ (statsSection year (viewOf year (genIndex year t1 fs))
                (monthStatistics (viewOf year (genIndex year t1 fs))).2
              ++ tocSection year (viewOf year (genIndex year t1 fs))) := by
      rw [genYearContent, String.append_assoc]
    have e3 : genYearContent year t3 (genIndex year t2 (genIndex year t1 fs))
        = writeMetadataContent (yearTitle year)
            (extractMetadata ((genIndex year t1 fs).yearIndex)) t3 year baseTags
            (monthStatistics (viewOf year (genIndex year t1 fs))).1
          ++ (statsSection year (viewOf year (genIndex year t1 fs))
                (monthStatistics (viewOf year (genIndex year t1 fs))).2
              ++ tocSection year (viewOf year (genIndex year t1 fs))) := by
      rw [genYearContent, String.append_assoc, hview, hD3]
    rw [e2, e3]
    exact updatedOnlyDiff_writeMeta _ _ _ _ _ _ _ _ ht2 ht3
  · intro m
    cases hm : fs.months m with
    | none =>
      left
      constructor <;> simp [genIndex, hm]
    | some st0 =>
      right
      have hov1 : extractFromContent (genMonthContent year t1 m st0)
          = nextDate (extractMetadata st0.overview) t1 :=
        extract_genMonthContent year t1 m st0 hy
      refine ⟨st0.notes, genMonthContent year t2 m (genMonthState year t1 m st0),
        genMonthContent year t3 m (genMonthState year t2 m (genMonthState year t1 m st0)),
        ?_, ?_, ?_⟩
      · simp [genIndex, hm, genMonthState]
      · simp [genIndex, hm, genMonthState]
      · have f2 : genMonthContent year t2 m (genMonthState year t1 m st0)
            = writeMetadataContent (monthTitle year m)
                (nextDate (extractMetadata st0.overview) t1) t2 year
                [pyLower (germanMonth m), year, "daily", "overview", "collection"]
                [germanMonth m]
              ++ monthBody year m st0.notes := by
          show writeMetadataContent (monthTitle year m)
              (extractMetadata (some (genMonthContent year t1 m st0))) t2 year
              [pyLower (germanMonth m), year, "daily", "overview", "collection"]
              [germanMonth m] ++ monthBody year m st0.notes = _
          rw [show extractMetadata (some (genMonthContent year t1 m st0))
              = extractFromContent (genMonthContent year t1 m st0) from rfl, hov1]
        have hov2 : extractFromContent (genMonthContent year t2 m (genMonthState year t1 m st0))
            = nextDate (extractMetadata st0.overview) t1 := by
          rw [extract_genMonthContent year t2 m _ hy,
            show extractMetadata ((genMonthState year t1 m st0).overview)
              = extractFromContent (genMonthContent year t1 m st0) from rfl, hov1,
            nextDate_eq_self _ _ (nextDate_ne _ _)]
        have f3 : genMonthContent year t3 m (genMonthState year t2 m (genMonthState year t1 m st0))
            = writeMetadataContent (monthTitle year m)
                (nextDate (extractMetadata st0.overview) t1) t3 year
                [pyLower (germanMonth m), year, "daily", "overview", "collection"]
                [germanMonth m]
              ++ monthBody year m st0.notes := by
          show writeMetadataContent (monthTitle year m)
              (extractMetadata (some (genMonthContent year t2 m (genMonthState year t1 m st0))))
              t3 year [pyLower (germanMonth m), year, "daily", "overview", "collection"]
              [germanMonth m] ++ monthBody year m st0.notes = _
          rw [show extractMetadata (some (genMonthContent year t2 m (genMonthState year t1 m st0)))
              = extractFromContent (genMonthContent year t2 m (genMonthState year t1 m st0))
              from rfl, hov2]
        rw [f2, f3]
        exact updatedOnlyDiff_writeMeta _ _ _ _ _ _ _ _ ht2 ht3


/-- A fresh note tree: the January 2024 directory holds two notes, no index
file exists anywhere yet. -/
def freshTree : FS :=
  { yearIndex := none
    months := fun m =>
      if m.val = 0 then some ⟨["20240101.md", "20240102_Trip.md"], none⟩ else none }

set_option maxRecDepth 100000 in
/-- C1 (counterexample): on the fresh tree, two consecutive runs of
`generate_index` with the same run date produce different yearly index
files, and the difference is not in the `updated_date:` line (which is equal
here): the first run counts 2 notes in January, the second counts 3 (the
month index created by the first run is now in the listing), and the `date:`
line of the second run's file has absorbed the first run's `updated_date:`
line. -/
theorem c1_counterexample :
    (genIndex "2024" "2025-01-12" freshTree).yearIndex
      ≠ (genIndex "2024" "2025-01-12" (genIndex "2024" "2025-01-12" freshTree)).yearIndex
    ∧ hasSub "Januar: 2 notes"
        (((genIndex "2024" "2025-01-12" freshTree).yearIndex).getD "") = true
    ∧ hasSub "Januar: 3 notes"
        (((genIndex "2024" "2025-01-12"
          (genIndex "2024" "2025-01-12" freshTree)).yearIndex).getD "") = true
    ∧ hasSub "date: updated_date: 2025-01-12"
        (((genIndex "2024" "2025-01-12"
          (genIndex "2024" "2025-01-12" freshTree)).yearIndex).getD "") = true := by
  exact ⟨by decide, by decide, by decide, by decide⟩

/-- Witness for the amended C1 theorem: concrete year, run dates and tree. -/
theorem c1_regeneration_idempotent_witness :
    ("2024".data.all Char.isDigit = true)
    ∧ ('\n' ∉ "2025-01-13".data) ∧ ('\n' ∉ "2025-01-14".data)
    ∧ agreeExceptUpdated
        (genIndex "2024" "2025-01-13" (genIndex "2024" "2025-01-12" freshTree))
        (genIndex "2024" "2025-01-14"
          (genIndex "2024" "2025-01-13" (genIndex "2024" "2025-01-12" freshTree))) :=
  ⟨by decide, by decide, by decide,
    c1_regeneration_idempotent_from_second_run "2024" "2025-01-12" "2025-01-13" "2025-01-14"
      freshTree (by decide) (by decide) (by decide)⟩

/-- C2 (amended): the month-level entry list has no `Overview` filter.  The
listing is taken after `write_metadata` has recreated the overview file, so
the month's own index file is always among the written links, alongside
every `.md` note of the directory. -/
theorem c2_month_index_includes_overview (year : String) (m : Fin 12) (notes : List String) :
    overviewName year m ∈ monthIndexEntries year m notes
    ∧ ∀ f ∈ notes, strEndsWith f ".md" = true → f ∈ monthIndexEntries year m notes := by
  constructor
  · unfold monthIndexEntries
    rw [List.mem_filter]
    exact ⟨(insSort_perm _).mem_iff.2 (List.mem_append.2 (Or.inr (by simp))),
      overviewName_md year m⟩
  · intro f hf hmd
    unfold monthIndexEntries
    rw [List.mem_filter]
    exact ⟨(insSort_perm _).mem_iff.2 (List.mem_append.2 (Or.inl hf)), hmd⟩

/-- Witness for the amended C2 theorem at the end-to-end example month. -/
theorem c2_month_index_includes_overview_witness :
    overviewName "2024" 0 ∈ monthIndexEntries "2024" 0 ["20240101.md", "20240102_Trip.md"]
    ∧ "20240101.md" ∈ monthIndexEntries "2024" 0 ["20240101.md", "20240102_Trip.md"] :=
  ⟨(c2_month_index_includes_overview "2024" 0 ["20240101.md", "20240102_Trip.md"]).1,
    (c2_month_index_includes_overview "2024" 0 ["20240101.md", "20240102_Trip.md"]).2
      "20240101.md" (by decide) (by decide)⟩

set_option maxRecDepth 100000 in
/-- C2 (counterexample): in the claim's example month — `20240101.md`,
`20240102_Trip.md` and the month's own overview file — the regenerated month
index does not contain exactly the two claimed links: its entry list is the
three-element list that also holds the overview file, and the regenerated
file contains the link line for the overview file. -/
theorem c2_counterexample :
    monthIndexEntries "2024" 0 ["20240101.md", "20240102_Trip.md"]
      ≠ ["20240101.md", "20240102_Trip.md"]
    ∧ monthIndexEntries "2024" 0 ["20240101.md", "20240102_Trip.md"]
      = ["20240101.md", "20240102_Trip.md", "Overview 2024 01 Daily Notes.md"]
    ∧ hasSub "- [[Overview 2024 01 Daily Notes.md]]"
        (genMonthContent "2024" "2025-01-12" 0
          ⟨["20240101.md", "20240102_Trip.md"], some "date: 2024-03-01\n"⟩) = true := by
  exact ⟨by decide, by decide, by decide⟩

/-- Decidable check equivalent to `goodChars` (used to discharge `goodVal`
hypotheses on concrete strings). -/
def goodCharsB (l : List Char) : Bool :=
  (match l.head? with | none => true | some c => !(isPySpace c))
    && (match l.getLast? with | none => true | some c => !(isPySpace c))
    && (l.all fun c => !(c == '\n'))

lemma goodChars_of_b (l : List Char) (h : goodCharsB l = true) : goodChars l := by
  unfold goodCharsB at h
  simp only [Bool.and_eq_true] at h
  obtain ⟨⟨h1, h2⟩, h3⟩ := h
  refine ⟨?_, ?_, ?_⟩
  · intro c hc; rw [hc] at h1; simpa using h1
  · intro c hc; rw [hc] at h2; simpa using h2
  · intro hm
    simp only [List.all_eq_true] at h3
    have := h3 '\n' hm
    simp at this

lemma goodVal_of_b (s : String) (h : goodCharsB s.data = true) : goodVal s :=
  goodChars_of_b s.data h

/-- Regrouping of the document written by `write_metadata` followed by the
appended body. -/
lemma writeMeta_shape (title x today year : String) (tags fm : List String) (suf : String) :
    writeMetadataContent title x today year tags fm ++ suf
      = metaHead title ++ (dateLine x ++ (updLine today ++ (metaTagsTail tags fm year ++ suf))) := by
  simp [writeMetadataContent, String.append_assoc]

/-- C3: date preservation.  If the file at the target path is a previously
generated Index Document whose frontmatter stores the (well-formed, nonempty)
date `d0`, the regenerated document again carries the line `date: ` ++ `d0`;
if no file exists at the target path, the regenerated document carries the
empty line `date: `.  Both are proved for the yearly index (parts 1 and 2)
and for the monthly index (parts 3 and 4). -/
theorem c3_date_preservation :
    (∀ year today t0 y0 d0 tail : String, ∀ tags0 fm0 : List String, ∀ fs : FS,
        year.data.all Char.isDigit = true → goodVal d0 → d0 ≠ "" →
        fs.yearIndex
          = some (writeMetadataContent (yearTitle year) d0 t0 y0 tags0 fm0 ++ tail) →
        ∃ rest, (genIndex year today fs).yearIndex
          = some (metaHead (yearTitle year) ++ (("date: " ++ d0 ++ "\n") ++ rest)))
    ∧ (∀ year today : String, ∀ fs : FS, fs.yearIndex = none →
        ∃ rest, (genIndex year today fs).yearIndex
          = some (metaHead (yearTitle year) ++ ("date: \n" ++ rest)))
    ∧ (∀ year today t0 y0 d0 tail : String, ∀ tags0 fm0 : List String,
        ∀ m : Fin 12, ∀ st : MonthState,
        year.data.all Char.isDigit = true → goodVal d0 → d0 ≠ "" →
        st.overview
          = some (writeMetadataContent (monthTitle year m) d0 t0 y0 tags0 fm0 ++ tail) →
        ∃ rest, genMonthContent year today m st
          = metaHead (monthTitle year m) ++ (("date: " ++ d0 ++ "\n") ++ rest))
    ∧ (∀ year today : String, ∀ m : Fin 12, ∀ st : MonthState, st.overview = none →
        ∃ rest, genMonthContent year today m st
          = metaHead (monthTitle year m) ++ ("date: \n" ++ rest)) := by
  refine ⟨?_, ?_, ?_, ?_⟩
  · intro year today t0 y0 d0 tail tags0 fm0 fs hy hgood hne hprev
    refine ⟨updLine today
      ++ (metaTagsTail baseTags (monthStatistics (viewOf year fs)).1 year
          ++ (statsSection year (viewOf year fs) (monthStatistics (viewOf year fs)).2
              ++ tocSection year (viewOf year fs))), ?_⟩
    show some (genYearContent year today fs) = _
    have hX : extractMetadata fs.yearIndex = d0 := by
      rw [hprev]
      show extractFromContent _ = d0
      rw [extract_written _ _ _ _ _ _ _ (noD_metaHead_year year hy) hgood,
        nextDate_eq_self _ _ hne]
    rw [genYearContent, hX, String.append_assoc, writeMeta_shape,
      show dateLine d0 = "date: " ++ d0 ++ "\n" from if_pos hne]
  · intro year today fs hprev
    refine ⟨updLine today
      ++ (metaTagsTail baseTags (monthStatistics (viewOf year fs)).1 year
          ++ (statsSection year (viewOf year fs) (monthStatistics (viewOf year fs)).2
              ++ tocSection year (viewOf year fs))), ?_⟩
    show some (genYearContent year today fs) = _
    have hX : extractMetadata fs.yearIndex = "" := by rw [hprev]; rfl
    rw [genYearContent, hX, String.append_assoc, writeMeta_shape,
      show dateLine "" = "date: \n" from rfl]
  · intro year today t0 y0 d0 tail tags0 fm0 m st hy hgood hne hprev
    refine ⟨updLine today
      ++ (metaTagsTail [pyLower (germanMonth m), year, "daily", "overview", "collection"]
            [germanMonth m] year
          ++ monthBody year m st.notes), ?_⟩
    have hX : extractMetadata st.overview = d0 := by
      rw [hprev]
      show extractFromContent _ = d0
      rw [extract_written _ _ _ _ _ _ _ (noD_metaHead_month year m hy) hgood,
        nextDate_eq_self _ _ hne]
    rw [genMonthContent, hX, writeMeta_shape,
      show dateLine d0 = "date: " ++ d0 ++ "\n" from if_pos hne]
  · intro year today m st hprev
    refine ⟨updLine today
      ++ (metaTagsTail [pyLower (germanMonth m), year, "daily", "overview", "collection"]
            [germanMonth m] year
          ++ monthBody year m st.notes), ?_⟩
    have hX : extractMetadata st.overview = "" := by rw [hprev]; rfl
    rw [genMonthContent, hX, writeMeta_shape,
      show dateLine "" = "date: \n" from rfl]

/-- A concrete pre-existing yearly state for the date-preservation witness:
the yearly index was generated earlier and stores `date: 2024-03-01`. -/
def fsPrior : FS :=
  { yearIndex := some (writeMetadataContent (yearTitle "2024") "2024-03-01" "2025-01-01"
      "2024" baseTags ["Januar"] ++ "BODY")
    months := fun _ => none }

/-- Witness for C3 at a concrete prior document (year part) and at a month
directory without a prior overview (month part). -/
theorem c3_date_preservation_witness :
    ("2024".data.all Char.isDigit = true) ∧ goodVal "2024-03-01" ∧ ("2024-03-01" ≠ "")
    ∧ (∃ rest, (genIndex "2024" "2025-01-12" fsPrior).yearIndex
        = some (metaHead (yearTitle "2024") ++ (("date: " ++ "2024-03-01" ++ "\n") ++ rest)))
    ∧ (∃ rest, genMonthContent "2024" "2025-01-12" 0 ⟨["20240101.md"], none⟩
        = metaHead (monthTitle "2024" 0) ++ ("date: \n" ++ rest)) :=
  ⟨by decide, goodVal_of_b _ (by decide), by decide,
    c3_date_preservation.1 "2024" "2025-01-12" "2025-01-01" "2024" "2024-03-01" "BODY"
      baseTags ["Januar"] fsPrior (by decide) (goodVal_of_b _ (by decide)) (by decide) rfl,
    c3_date_preservation.2.2.2 "2024" "2025-01-12" 0 ⟨["20240101.md"], none⟩ rfl⟩

/-- The found-months list of `month_statistics`: the German name of every
month whose directory exists, in chronological order. -/
lemma monthStatistics_names (view : Fin 12 → Option (List String)) :
    (monthStatistics view).1
      = (List.finRange 12).filterMap fun m => (view m).map fun _ => germanMonth m := by
  unfold monthStatistics
  have h : ∀ (L : List (Fin 12)) (names : List String) (n : Nat),
      (L.foldl (fun acc m =>
        match view m with
        | some files => (acc.1 ++ [germanMonth m], acc.2 + mdCount files)
        | none => acc) (names, n)).1
      = names ++ (L.filterMap fun m => (view m).map fun _ => germanMonth m) := by
    intro L
    induction L with
    | nil => intro names n; simp
    | cons a t ih =>
      intro names n
      cases hv : view a <;> simp [hv, ih]
  simpa using h (List.finRange 12) [] 0

/-- The total of `month_statistics` is the sum of the per-month counts. -/
lemma monthStatistics_total (view : Fin 12 → Option (List String)) :
    (monthStatistics view).2
      = ((List.finRange 12).map fun m =>
          match view m with
          | some files => mdCount files
          | none => 0).sum := by
  unfold monthStatistics
  have h : ∀ (L : List (Fin 12)) (names : List String) (n : Nat),
      (L.foldl (fun acc m =>
        match view m with
        | some files => (acc.1 ++ [germanMonth m], acc.2 + mdCount files)
        | none => acc) (names, n)).2
      = n + (L.map fun m =>
          match view m with
          | some files => mdCount files
          | none => 0).sum := by
    intro L
    induction L with
    | nil => intro names n; simp
    | cons a t ih =>
      intro names n
      cases hv : view a <;> simp [hv, ih] <;> omega
  simpa using h (List.finRange 12) [] 0

/-- A string that begins with a non-digit character (so a digits-only year
string can never equal it). -/
def headNonDigit (s : String) : Bool :=
  match s.data with
  | [] => false
  | c :: _ => !c.isDigit

lemma digits_ne (y s : String) (hy : y.data.all Char.isDigit = true)
    (hs : headNonDigit s = true) : y ≠ s := by
  intro he
  subst he
  unfold headNonDigit at hs
  cases hd : y.data with
  | nil => rw [hd] at hs; simp at hs
  | cons c rest =>
    rw [hd] at hs hy
    simp only [List.all_cons, Bool.and_eq_true] at hy
    simp only [Bool.not_eq_true'] at hs
    have h1 := hy.1
    rw [hs] at h1
    exact absurd h1 (by decide)

lemma writtenTags_year_nodup (year : String) (view : Fin 12 → Option (List String))
    (hy : year.data.all Char.isDigit = true) :
    (writtenTags baseTags (monthStatistics view).1 year).Nodup := by
  have hinj : ∀ i j : Fin 12, pyLower (germanMonth i) = pyLower (germanMonth j) → i = j := by
    decide
  have hnb : ∀ i : Fin 12, pyLower (germanMonth i) ∉ baseTags := by decide
  have hhead : ∀ i : Fin 12, headNonDigit (pyLower (germanMonth i)) = true := by decide
  rw [writtenTags, monthStatistics_names, List.map_filterMap]
  have hfun : (fun m : Fin 12 => ((view m).map fun _ => germanMonth m).map pyLower)
      = fun m : Fin 12 => (view m).map fun _ => pyLower (germanMonth m) := by
    funext m
    cases hv : view m <;> simp [hv]
  rw [hfun]
  have hLmem : ∀ x ∈ (List.finRange 12).filterMap
      (fun m : Fin 12 => (view m).map fun _ => pyLower (germanMonth m)),
      ∃ i : Fin 12, x = pyLower (germanMonth i) := by
    intro x hx
    rcases List.mem_filterMap.1 hx with ⟨i, -, hfi⟩
    cases hv : view i with
    | none => rw [hv] at hfi; simp at hfi
    | some w =>
      rw [hv] at hfi
      simp only [Option.map_some', Option.some.injEq] at hfi
      exact ⟨i, hfi.symm⟩
  have hLnd : ((List.finRange 12).filterMap
      (fun m : Fin 12 => (view m).map fun _ => pyLower (germanMonth m))).Nodup := by
    refine (List.nodup_finRange 12).filterMap ?_
    intro a a' b hfa hfa'
    have ha : pyLower (germanMonth a) = b := by
      cases hv : view a with
      | none => rw [hv] at hfa; simp at hfa
      | some w => rw [hv] at hfa; simpa using hfa
    have ha' : pyLower (germanMonth a') = b := by
      cases hv : view a' with
      | none => rw [hv] at hfa'; simp at hfa'
      | some w => rw [hv] at hfa'; simpa using hfa'
    exact hinj a a' (ha.trans ha'.symm)
  rw [List.nodup_append]
  refine ⟨?_, by simp, ?_⟩
  · rw [List.nodup_append]
    refine ⟨by decide, hLnd, ?_⟩
    intro x hxb hxL
    rcases hLmem x hxL with ⟨i, rfl⟩
    exact hnb i hxb
  · intro x hx hxy
    rw [List.mem_singleton] at hxy
    subst hxy
    rcases List.mem_append.1 hx with h | h
    · have hd : ∀ s ∈ baseTags, headNonDigit s = true := by decide
      exact digits_ne x _ hy (hd _ h) rfl
    · rcases hLmem x h with ⟨i, hxi⟩
      exact digits_ne x _ hy (hhead i) hxi

/-- C4 (amended): the yearly index's tag sequence does follow the claim —
fixed base tags, one lower-cased localized name per populated month, then
the year, with no duplicates (for a digits-only year string) — but the
monthly index's tag sequence does not: `generate_month_index` passes
`[month, year, daily, overview, collection]` as the base list and
`write_metadata` then appends the month tag and the year again, so the month
tag and the year occur twice and the sequence does not start with the base
tags. -/
theorem c4_tags_composition (year : String) (fs : FS) (m : Fin 12)
    (hy : year.data.all Char.isDigit = true) :
    writtenTags baseTags (monthStatistics (viewOf year fs)).1 year
      = ["daily", "overview", "collection"]
        ++ ((monthStatistics (viewOf year fs)).1.map pyLower) ++ [year]
    ∧ (writtenTags baseTags (monthStatistics (viewOf year fs)).1 year).Nodup
    ∧ monthIndexTags year m
      = [pyLower (germanMonth m), year] ++ ["daily", "overview", "collection"]
        ++ [pyLower (germanMonth m), year] := by
  refine ⟨by simp [writtenTags, baseTags], writtenTags_year_nodup year _ hy, ?_⟩
  simp [monthIndexTags, writtenTags]

/-- Witness for the amended C4 theorem. -/
theorem c4_tags_composition_witness :
    ("2024".data.all Char.isDigit = true)
    ∧ (writtenTags baseTags (monthStatistics (viewOf "2024" freshTree)).1 "2024").Nodup
    ∧ monthIndexTags "2024" 0
      = [pyLower (germanMonth 0), "2024"] ++ ["daily", "overview", "collection"]
        ++ [pyLower (germanMonth 0), "2024"] :=
  ⟨by decide, (c4_tags_composition "2024" freshTree 0 (by decide)).2.1,
    (c4_tags_composition "2024" freshTree 0 (by decide)).2.2⟩

set_option maxRecDepth 100000 in
/-- C4 (counterexample): the tag sequence of the January 2024 monthly index
is `[januar, 2024, daily, overview, collection, januar, 2024]`: it does not
start with the base tags, and the month tag and year are duplicated. -/
theorem c4_counterexample :
    (monthIndexTags "2024" 0).take 3 ≠ ["daily", "overview", "collection"]
    ∧ (monthIndexTags "2024" 0).count "januar" = 2
    ∧ (monthIndexTags "2024" 0).count "2024" = 2
    ∧ ¬ (monthIndexTags "2024" 0).Nodup := by
  exact ⟨by decide, by decide, by decide, by decide⟩

/-- The per-month statistics line of a populated month appears in the
statistics section's line list. -/
lemma statsLines_mem (view : Fin 12 → Option (List String)) (m : Fin 12)
    (files : List String) (hv : view m = some files) :
    (germanMonth m ++ ": " ++ toString (mdCount files) ++ " notes\n") ∈ statsLines view := by
  unfold statsLines
  refine List.mem_map.2 ⟨m, List.mem_finRange m, ?_⟩
  rw [hv]

/-- C5: count correctness and case-sensitive extension matching.  Adding
files that do not end in the exact extension `.md` never changes a month's
count (so the reported `N` is independent of `M`); the statistics section
contains, for every existing month directory, the line with that month's
`.md` count; the year total is the sum of the per-month counts; and the
extension test is case-sensitive: of `20240101.md`, `20240102.MD` and
`x.txt` exactly one file is counted. -/
theorem c5_count_correctness :
    (∀ files extra : List String, extra.all (fun f => !(strEndsWith f ".md")) = true →
        mdCount (files ++ extra) = mdCount files)
    ∧ (∀ year : String, ∀ fs : FS, ∀ m : Fin 12, ∀ files : List String,
        viewOf year fs m = some files →
        (germanMonth m ++ ": " ++ toString (mdCount files) ++ " notes\n")
          ∈ statsLines (viewOf year fs))
    ∧ (∀ year : String, ∀ fs : FS,
        (monthStatistics (viewOf year fs)).2
          = ((List.finRange 12).map fun m =>
              match viewOf year fs m with
              | some files => mdCount files
              | none => 0).sum)
    ∧ mdCount ["20240101.md", "20240102.MD", "x.txt"] = 1 := by
  refine ⟨?_, fun year fs m files hv => statsLines_mem _ m files hv,
    fun year fs => monthStatistics_total _, by decide⟩
  intro files extra hx
  rw [mdCount_eq_countP, mdCount_eq_countP, List.countP_append]
  have hz : extra.countP (fun e => strEndsWith e ".md") = 0 := by
    rw [List.countP_eq_zero]
    intro a ha
    simp only [List.all_eq_true, Bool.not_eq_true'] at hx
    simp [hx a ha]
  omega

/-- Witness for C5 at concrete directories. -/
theorem c5_count_correctness_witness :
    ((["b.txt", "c.TXT"] : List String).all (fun f => !(strEndsWith f ".md")) = true)
    ∧ mdCount (["a.md"] ++ ["b.txt", "c.TXT"]) = mdCount ["a.md"]
    ∧ viewOf "2024" freshTree 0 = some ["20240101.md", "20240102_Trip.md"]
    ∧ (germanMonth 0 ++ ": " ++ toString (mdCount ["20240101.md", "20240102_Trip.md"])
        ++ " notes\n") ∈ statsLines (viewOf "2024" freshTree)
    ∧ (monthStatistics (viewOf "2024" freshTree)).2
        = ((List.finRange 12).map fun m =>
            match viewOf "2024" freshTree m with
            | some files => mdCount files
            | none => 0).sum :=
  ⟨by decide, c5_count_correctness.1 ["a.md"] ["b.txt", "c.TXT"] (by decide), by decide,
    c5_count_correctness.2.1 "2024" freshTree 0 ["20240101.md", "20240102_Trip.md"]
      (by decide),
    c5_count_correctness.2.2.1 "2024" freshTree⟩

/-- C6: exclusion asymmetry at the year level.  The table-of-contents entry
list of `write_table_of_contents` never contains the month's own index file
(its name contains `Overview`, which the filter excludes), for any directory
listing whatsoever; yet when the index file is present in the month
directory, the `.md` count used by the statistics does include it: the count
is one more than the count of the other files. -/
theorem c6_exclusion_asymmetry (year : String) (m : Fin 12) (st : MonthState) (c : String) :
    (∀ files : List String, overviewName year m ∉ tocEntries files)
    ∧ (st.overview = some c → mdCount (listdirM year m st) = mdCount st.notes + 1) := by
  constructor
  · intro files hmem
    unfold tocEntries at hmem
    rw [List.mem_filter] at hmem
    have h2 := hmem.2
    rw [hasSub_overview year m] at h2
    simp at h2
  · intro hov
    rw [show listdirM year m st = st.notes ++ [overviewName year m] from by
      unfold listdirM; rw [hov]]
    rw [mdCount_eq_countP, mdCount_eq_countP, List.countP_append]
    simp [List.countP_cons, overviewName_md year m]

/-- Witness for C6 at a concrete month directory holding its index file. -/
theorem c6_exclusion_asymmetry_witness :
    overviewName "2024" 0 ∉ tocEntries (listdirM "2024" 0 ⟨["20240101.md"], some "x"⟩)
    ∧ mdCount (listdirM "2024" 0 ⟨["20240101.md"], some "x"⟩) = mdCount ["20240101.md"] + 1 :=
  ⟨(c6_exclusion_asymmetry "2024" 0 ⟨["20240101.md"], some "x"⟩ "x").1 _,
    (c6_exclusion_asymmetry "2024" 0 ⟨["20240101.md"], some "x"⟩ "x").2 rfl⟩

lemma string_foldl_append (l : List String) :
    ∀ x y : String, l.foldl (· ++ ·) (x ++ y) = x ++ l.foldl (· ++ ·) y := by
  induction l with
  | nil => intro x y; rfl
  | cons a t ih =>
    intro x y
    show t.foldl (· ++ ·) ((x ++ y) ++ a) = x ++ t.foldl (· ++ ·) (y ++ a)
    rw [String.append_assoc, ih]

lemma join_cons (a : String) (l : List String) :
    String.join (a :: l) = a ++ String.join l := by
  show l.foldl (· ++ ·) ("" ++ a) = a ++ l.foldl (· ++ ·) ""
  have h1 : ("" ++ a : String) = a ++ "" := by simp
  rw [h1, string_foldl_append]

/-- C7 (amended): in a directory whose files are all notes, the walker
writes exactly one line per file, carrying the file's display name and its
own character count (first conjunct).  But the write is not restricted to
note files: a file that is not a note also gets a line — showing its name
minus three characters and the character count most recently read from a
`.md` file, with the stored count left unchanged (second conjunct). -/
theorem c7_note_lines_and_stale_count :
    (∀ cc : Option Nat, ∀ files : List (String × String),
        files.all (fun p => strEndsWith p.1 ".md") = true →
        ∃ cc2, fileLines cc files
          = some (String.join (files.map fun p => noteLine p.1 p.2.data.length), cc2))
    ∧ (∀ n : Nat, ∀ fname content : String, ∀ rest : List (String × String),
        strEndsWith fname ".md" = false →
        fileLines (some n) ((fname, content) :: rest)
          = (fileLines (some n) rest).map fun p => (noteLine fname n ++ p.1, p.2)) := by
  constructor
  · intro cc files
    induction files generalizing cc with
    | nil =>
      intro h
      exact ⟨cc, by simp [fileLines, String.join]⟩
    | cons p rest ih =>
      intro h
      obtain ⟨fname, content⟩ := p
      simp only [List.all_cons, Bool.and_eq_true] at h
      obtain ⟨cc2, hcc⟩ := ih (some content.data.length) h.2
      refine ⟨cc2, ?_⟩
      simp only [fileLines, h.1, if_true, hcc, List.map_cons, join_cons]
  · intro n fname content rest h
    cases hr : fileLines (some n) rest with
    | none => simp [fileLines, h, hr]
    | some pr =>
      obtain ⟨s, cc2⟩ := pr
      simp [fileLines, h, hr]

/-- Witness for the amended C7 theorem. -/
theorem c7_note_lines_witness :
    ((([("a.md", "hi")] : List (String × String)).all
        (fun p => strEndsWith p.1 ".md")) = true)
    ∧ (∃ cc2, fileLines none [("a.md", "hi")]
        = some (String.join ([("a.md", "hi")].map fun p => noteLine p.1 p.2.data.length), cc2))
    ∧ (strEndsWith "b.txt" ".md" = false)
    ∧ fileLines (some 2) [("b.txt", "xyz")]
        = (fileLines (some 2) ([] : List (String × String))).map
            fun p => (noteLine "b.txt" 2 ++ p.1, p.2) :=
  ⟨by decide, c7_note_lines_and_stale_count.1 none [("a.md", "hi")] (by decide),
    by decide, c7_note_lines_and_stale_count.2 2 "b.txt" "xyz" [] (by decide)⟩

/-- The vault of the C7 counterexample: one directory holding a note and a
text file, the note first in enumeration order. -/
def vaultC7 : VDir := .node "root" [("a.md", "hi"), ("b.txt", "xyz")] .nil

set_option maxRecDepth 100000 in
/-- C7 (counterexample): with a note `a.md` (2 characters) and a non-note
`b.txt` in the directory, the overview contains the line `- [[b.]] (2)` — a
line for a file that is not a note, formed from `"b.txt"[:-3]` and the
character count of `a.md` — so the output does not contain lines only for
note files. -/
theorem c7_counterexample :
    generateVaultOverview "V" "2025-01-12 10:00:00" vaultC7
      = some ("# Vault Übersicht\n\nErstellt am: 2025-01-12 10:00:00\n\n"
          ++ "- [[a]] (2)\n- [[b.]] (2)\n\n")
    ∧ hasSub "- [[b.]] (2)"
        ((generateVaultOverview "V" "2025-01-12 10:00:00" vaultC7).getD "") = true
    ∧ strEndsWith "b.txt" ".md" = false := by
  exact ⟨by decide, by decide, by decide⟩

lemma hasSubChars_append_right (pat l r : List Char) (h : hasSubChars pat l = true) :
    hasSubChars pat (l ++ r) = true := by
  induction l with
  | nil =>
    cases pat with
    | nil =>
      cases r with
      | nil => rfl
      | cons c cs => simp [hasSubChars, listStartsWith]
    | cons a ps => exact absurd h (by simp [hasSubChars, listStartsWith])
  | cons c cs ih =>
    simp only [hasSubChars, Bool.or_eq_true] at h
    rcases h with h | h
    · have hsw := listStartsWith_append_left pat (c :: cs) r h
      rw [List.cons_append] at hsw
      simp [hasSubChars, hsw]
    · simp [hasSubChars, ih h]

lemma pathHasMarker_extend (full seg : String) (h : pathHasMarker full = true) :
    pathHasMarker (full ++ seg) = true := by
  unfold pathHasMarker hasSub at h ⊢
  rw [String.data_append]
  simp only [Bool.or_eq_true] at h ⊢
  rcases h with h1 | h1
  · exact Or.inl (hasSubChars_append_right _ _ _ h1)
  · exact Or.inr (hasSubChars_append_right _ _ _ h1)

mutual

/-- Every directory whose full path contains `.obsidian` or `.trash` as a
substring — together with its entire subtree, whose paths extend it — emits
nothing and leaves `char_count` untouched. -/
theorem walkDir_skips_marked (full rel : String) (cc : Option Nat) (d : VDir)
    (h : pathHasMarker full = true) : walkDir full rel cc d = some ("", cc) := by
  cases d with
  | node dn dfl dss =>
    rw [walkDir, if_pos h]
    simp [walkSubs_skips_marked full rel cc dss h]

/-- Subtree form of `walkDir_skips_marked`. -/
theorem walkSubs_skips_marked (full rel : String) (cc : Option Nat) (ds : VDirList)
    (h : pathHasMarker full = true) : walkSubs full rel cc ds = some ("", cc) := by
  cases ds with
  | nil => rfl
  | cons d t =>
    rw [walkSubs]
    simp [walkDir_skips_marked (full ++ "/" ++ d.name) (childRel rel d.name) cc d
      (pathHasMarker_extend (full ++ "/") d.name (pathHasMarker_extend full "/" h)),
      walkSubs_skips_marked full rel cc t h]

end

/-- C9 (amended): exclusion is a substring test on the full path, not an
exact-name test, and headings depend on the separator count of the relative
path.  (1) Any directory whose full path contains `.obsidian` or `.trash`
as a substring is skipped together with its whole subtree.  (2) A directory
whose relative path contains no separator — the vault root and every direct
child of it — emits no heading, only its file lines and a blank line.
(3) A deeper directory emits its heading — `level + 1` hash marks and its
name — even when it holds no files at all. -/
theorem c9_traversal_and_headings :
    (∀ full rel : String, ∀ cc : Option Nat, ∀ d : VDir,
        pathHasMarker full = true → walkDir full rel cc d = some ("", cc))
    ∧ (∀ rel dname : String, ∀ cc : Option Nat, ∀ files : List (String × String),
        countSep rel = 0 →
        dirSection rel dname cc files
          = (fileLines cc files).map fun p => (p.1 ++ "\n", p.2))
    ∧ (∀ rel dname : String, ∀ cc : Option Nat, 0 < countSep rel →
        dirSection rel dname cc []
          = some (hashRun (countSep rel + 1) ++ " " ++ dname ++ "\n\n" ++ "\n", cc)) := by
  refine ⟨fun full rel cc d h => walkDir_skips_marked full rel cc d h, ?_, ?_⟩
  · intro rel dname cc files h
    unfold dirSection
    cases hf : fileLines cc files with
    | none => simp
    | some pr =>
      obtain ⟨s, cc2⟩ := pr
      simp [h]
  · intro rel dname cc h
    unfold dirSection
    simp [fileLines, h, String.append_assoc]

/-- Witness for the amended C9 theorem. -/
theorem c9_traversal_and_headings_witness :
    (pathHasMarker "V/.trash" = true)
    ∧ walkDir "V/.trash" "x" (some 5) (.node "d" [("a.md", "zz")] .nil) = some ("", some 5)
    ∧ (countSep "Journal" = 0)
    ∧ dirSection "Journal" "Journal" none [("a.md", "zz")]
        = (fileLines none [("a.md", "zz")]).map (fun p => (p.1 ++ "\n", p.2))
    ∧ (0 < countSep "Journal/2024")
    ∧ dirSection "Journal/2024" "2024" (some 3) []
        = some (hashRun (countSep "Journal/2024" + 1) ++ " " ++ "2024" ++ "\n\n" ++ "\n",
            some 3) :=
  ⟨by decide,
    c9_traversal_and_headings.1 "V/.trash" "x" (some 5) (.node "d" [("a.md", "zz")] .nil)
      (by decide),
    by decide,
    c9_traversal_and_headings.2.1 "Journal" "Journal" none [("a.md", "zz")] (by decide),
    by decide,
    c9_traversal_and_headings.2.2 "Journal/2024" "2024" (some 3) (by decide)⟩

/-- The vault of the C9 counterexample: the root holds a directory
`x.trashy` (whose name merely contains `.trash` as a substring) with a note
`n.md`, and a directory `A` with a note `m.md`. -/
def vaultC9 : VDir :=
  .node "root" []
    (.cons (.node "x.trashy" [("n.md", "z")] .nil)
      (.cons (.node "A" [("m.md", "z")] .nil) .nil))

set_option maxRecDepth 100000 in
/-- C9 (counterexample): the claim says exactly the directories *named*
`.obsidian` or `.trash` are excluded and every other non-root directory
emits a heading.  But `x.trashy` — not named `.trash` — is excluded with its
note `n.md` (its path merely contains `.trash`), and the direct child `A` is
traversed (its note's line `[[m]]` appears) yet emits no heading at all:
the output contains no heading line for either directory. -/
theorem c9_counterexample :
    (generateVaultOverview "V" "2025-01-12 10:00:00" vaultC9).isSome = true
    ∧ hasSub "x.trashy"
        ((generateVaultOverview "V" "2025-01-12 10:00:00" vaultC9).getD "") = false
    ∧ hasSub "[[n]]"
        ((generateVaultOverview "V" "2025-01-12 10:00:00" vaultC9).getD "") = false
    ∧ hasSub "[[m]]"
        ((generateVaultOverview "V" "2025-01-12 10:00:00" vaultC9).getD "") = true
    ∧ hasSub "# A"
        ((generateVaultOverview "V" "2025-01-12 10:00:00" vaultC9).getD "") = false := by
  exact ⟨by decide, by decide, by decide, by decide, by decide⟩

/-- The vault of the C10 theorem: the only file the walk meets is a
non-`.md` file, so the line write uses `char_count` before any assignment. -/
def vaultC10 : VDir := .node "root" [("readme.txt", "hello")] .nil

set_option maxRecDepth 100000 in
/-- C10: the per-file line is written for every file regardless of
extension (for a non-note it shows the name minus three characters and the
most recently read `.md` length, leaving the stored length unchanged), and
on a vault whose walk meets a non-`.md` file before any `.md` file has been
read, the run aborts with the undefined-variable error (modelled by `none`)
instead of producing the overview. -/
theorem c10_stale_count_and_crash :
    generateVaultOverview "V" "2025-01-12 10:00:00" vaultC10 = none
    ∧ fileLines none [("readme.txt", "hello")] = none
    ∧ fileLines (some 7) [("note.txt", "hello")] = some (noteLine "note.txt" 7, some 7)
    ∧ noteLine "note.txt" 7 = "- [[note.]] (7)\n" := by
  exact ⟨by decide, by decide, by decide, by decide⟩

/-- Split a character list into its lines (at `\n`). -/
def splitLines : List Char → List (List Char)
  | [] => [[]]
  | c :: cs =>
    if c == '\n' then [] :: splitLines cs
    else
      match splitLines cs with
      | [] => [[c]]
      | l :: ls => (c :: l) :: ls

/-- The key of a `key: value` line: the characters before the first colon. -/
def keyOf : List Char → List Char
  | [] => []
  | c :: cs => if c == ':' then [] else c :: keyOf cs

/-- The value of a `key: value` line: the characters after the first colon
(empty when the line has no colon). -/
def valAfterColon : List Char → List Char
  | [] => []
  | c :: cs => if c == ':' then cs else valAfterColon cs

/-- The claim's reading of the extractor, following the spec's words: the
trimmed value of the first frontmatter field whose key is exactly `date` —
one `key: value` field per line, the key being the text before the first
colon. -/
def specFirstDateField (c : String) : String :=
  match (splitLines c.data).filter (fun line => keyOf line == ['d', 'a', 't', 'e']) with
  | [] => ""
  | line :: _ => String.mk (stripChars (valAfterColon line))

/-- C8 (counterexample): on a file whose frontmatter is
`updated_date: 2025-01-01` then `date: 2024-03-01`, the first field whose
key is `date` holds `2024-03-01` — but `extract_metadata` returns
`2025-01-01`: `re.search(r"date:\s*(.*)")` matches the substring `date:`
inside the key `updated_date`. -/
theorem c8_counterexample :
    specFirstDateField "updated_date: 2025-01-01\ndate: 2024-03-01\n" = "2024-03-01"
    ∧ extractMetadata (some "updated_date: 2025-01-01\ndate: 2024-03-01\n") = "2025-01-01"
    ∧ extractMetadata (some "updated_date: 2025-01-01\ndate: 2024-03-01\n")
      ≠ specFirstDateField "updated_date: 2025-01-01\ndate: 2024-03-01\n" := by
  exact ⟨by decide, by decide, by decide⟩

/-- C8 (amended): `extract_metadata` is total and returns the trimmed
remainder of the line at the first occurrence of the *substring* `date:`
anywhere in the content — which may lie inside a longer key such as
`updated_date:`.  A missing file yields the empty value (first conjunct);
content without the substring `date:` yields the empty value rather than an
error (second conjunct); and on content beginning with an `updated_date:`
field the returned value is that field's value, not the `date:` field's
(third conjunct). -/
theorem c8_substring_date_match :
    extractMetadata none = ""
    ∧ (∀ c : String, hasSub "date:" c = false → extractMetadata (some c) = "")
    ∧ (∀ v rest : String, goodVal v → v ≠ "" →
        extractMetadata (some ("updated_date: " ++ v ++ ("\n" ++ rest))) = v) := by
  refine ⟨rfl, ?_, ?_⟩
  · intro c h
    show extractFromContent c = ""
    unfold extractFromContent
    rw [findDateGroup_none c.data h]
  · intro v rest hgood hne
    show String.mk (stripChars (captureAfter (' ' :: (v.data ++ '\n' :: rest.data)))) = v
    rw [captureAfter_value v.data _ hgood.1 hgood.2.2
      (fun hh => hne (String.ext hh))]
    rw [stripChars_eq_self _ hgood]

/-- Witness for the amended C8 theorem. -/
theorem c8_substring_date_match_witness :
    (hasSub "date:" "no frontmatter here" = false)
    ∧ extractMetadata (some "no frontmatter here") = ""
    ∧ goodVal "2025-01-01" ∧ ("2025-01-01" ≠ "")
    ∧ extractMetadata
        (some ("updated_date: " ++ "2025-01-01" ++ ("\n" ++ "date: 2024-03-01\n")))
      = "2025-01-01" :=
  ⟨by decide, c8_substring_date_match.2.1 "no frontmatter here" (by decide),
    goodVal_of_b _ (by decide), by decide,
    c8_substring_date_match.2.2 "2025-01-01" "date: 2024-03-01\n"
      (goodVal_of_b _ (by decide)) (by decide)⟩
